import Mathlib

/-!
Verification development for the DMP repository (audio evaluation pipeline
`audioEval.py` and story meta-tag generator `modifiedHierarcy.py`).

Strings are modelled as lists of characters (`Str`).  The structured-output
parser `parse_meta_tags_json`, its JSON/Python-literal front ends, the JSON
serializer used for re-serialization, and the audio batch driver
`process_all_audio_files` are embedded as executable Lean functions.
Remote-call outcomes (network responses, decode results) are explicit inputs;
monetary amounts and latencies are rationals.
-/

abbrev Str := List Char

namespace DMP

/-- Python `str.strip` whitespace characters (ASCII subset). -/
def isPyWS (c : Char) : Bool :=
  c == ' ' || c == '\t' || c == '\n' || c == '\r' || c == '\x0b' || c == '\x0c'

def stripL (s : Str) : Str := s.dropWhile isPyWS

def stripR (s : Str) : Str := (s.reverse.dropWhile isPyWS).reverse

/-- Python `str.strip()`. -/
def pyStrip (s : Str) : Str := stripR (stripL s)

/-- `leadsWith s p` is `s.startswith(p)`. -/
def leadsWith : Str → Str → Bool
  | _, [] => true
  | [], _ :: _ => false
  | c :: s, p :: ps => c == p && leadsWith s ps

/-- `trailsWith s p` is `s.endswith(p)`. -/
def trailsWith (s p : Str) : Bool := leadsWith s.reverse p.reverse

def fenceOpen : Str := "```json".data

def fenceClose : Str := "```".data

/-- `if json_str.startswith("```json"): json_str = json_str[7:]`. -/
def dropOpenFence (s : Str) : Str :=
  if leadsWith s fenceOpen then s.drop 7 else s

/-- `if json_str.endswith("```"): json_str = json_str[:-3]`. -/
def dropCloseFence (s : Str) : Str :=
  if trailsWith s fenceClose then s.take (s.length - 3) else s

/-- The cleaning prologue of `StoryProcessor.parse_meta_tags_json`
(`modifiedHierarcy.py` lines 147-153): strip whitespace, drop a leading
"```json" fence, drop a trailing "```" fence, strip again. -/
def cleanJson (s : Str) : Str :=
  pyStrip (dropCloseFence (dropOpenFence (pyStrip s)))

/-- JSON-like values produced by `json.loads` / `ast.literal_eval`.
Numbers are restricted to integers and Python-literal keys to quoted
strings; neither restriction is exercised by the repository's schema. -/
inductive JVal where
  | jStr : Str → JVal
  | jNum : Int → JVal
  | jBool : Bool → JVal
  | jNull : JVal
  | jArr : List JVal → JVal
  | jObj : List (Str × JVal) → JVal

/-- Parser mode: strict JSON (`json.loads`) or permissive Python literal
(`ast.literal_eval`). -/
inductive PMode where
  | json
  | py
deriving DecidableEq

/-- Whitespace skipped between JSON tokens. -/
def skipJWS (s : Str) : Str :=
  s.dropWhile (fun c => c == ' ' || c == '\t' || c == '\n' || c == '\r')

/-- Python `dict` insertion: an existing key keeps its position and takes the
new value; a fresh key is appended. -/
def insertPy (m : List (Str × JVal)) (k : Str) (v : JVal) : List (Str × JVal) :=
  if m.any (fun p => p.1 == k) then
    m.map (fun p => if p.1 == k then (k, v) else p)
  else m ++ [(k, v)]

def hexVal (c : Char) : Option Nat :=
  if '0' ≤ c ∧ c ≤ '9' then some (c.toNat - 48)
  else if 'a' ≤ c ∧ c ≤ 'f' then some (c.toNat - 87)
  else if 'A' ≤ c ∧ c ≤ 'F' then some (c.toNat - 55)
  else none

/-- Single-character escape sequences accepted inside string literals.
Quote, backslash and slash map to themselves; the letters n, t, r, b, f map
to their control characters; Python literals additionally accept an escaped
single quote. -/
def escChar (mode : PMode) (c : Char) : Option Char :=
  if c == 'n' then some '\n'
  else if c == 't' then some '\t'
  else if c == 'r' then some '\r'
  else if c == 'b' then some '\x08'
  else if c == 'f' then some '\x0c'
  else if c == '"' || c == '\\' || c == '/' then some c
  else if mode == PMode.py && c == '\'' then some '\''
  else none

/-- Body of a string literal after its opening quote `q`; raw control
characters are rejected, as in `json.loads` strict mode. -/
def parseStrBody (mode : PMode) (q : Char) : Str → Option (Str × Str)
  | [] => none
  | c :: cs =>
    if c == q then some ([], cs)
    else if c == '\\' then
      match cs with
      | [] => none
      | e :: cs' =>
        if e == 'u' then
          match cs' with
          | h1 :: h2 :: h3 :: h4 :: rest =>
            match hexVal h1, hexVal h2, hexVal h3, hexVal h4 with
            | some a, some b, some d, some e' =>
              (parseStrBody mode q rest).map
                fun p => (Char.ofNat (((a * 16 + b) * 16 + d) * 16 + e') :: p.1, p.2)
            | _, _, _, _ => none
          | _ => none
        else
          match escChar mode e with
          | some d => (parseStrBody mode q cs').map fun p => (d :: p.1, p.2)
          | none => none
    else if c.toNat < 32 then none
    else (parseStrBody mode q cs).map fun p => (c :: p.1, p.2)

def isQuote (mode : PMode) (c : Char) : Bool :=
  c == '"' || (mode == PMode.py && c == '\'')

def natOfDigits (ds : Str) : Nat := ds.foldl (fun a c => a * 10 + (c.toNat - 48)) 0

/-- Digits of an integer literal after an optional sign; leading zeros are
rejected. -/
def parseNumCore (neg : Bool) (t : Str) : Option (JVal × Str) :=
  match t.takeWhile (·.isDigit) with
  | [] => none
  | d :: ds' =>
    if d == '0' && !ds'.isEmpty then none
    else
      let n : Int := Int.ofNat (natOfDigits (t.takeWhile (·.isDigit)))
      some (JVal.jNum (if neg then -n else n), t.dropWhile (·.isDigit))

/-- Integer literal with optional sign. -/
def parseNum (s : Str) : Option (JVal × Str) :=
  match s with
  | [] => parseNumCore false s
  | c :: r => if c == '-' then parseNumCore true r else parseNumCore false s

def trueKw : PMode → Str
  | PMode.json => "true".data
  | PMode.py => "True".data

def falseKw : PMode → Str
  | PMode.json => "false".data
  | PMode.py => "False".data

def nullKw : PMode → Str
  | PMode.json => "null".data
  | PMode.py => "None".data

mutual

/-- Recursive-descent value parser (fuelled). -/
def parseJVal (mode : PMode) : Nat → Str → Option (JVal × Str)
  | 0, _ => none
  | fuel + 1, s =>
    match skipJWS s with
    | [] => none
    | c :: cs =>
      if isQuote mode c then
        (parseStrBody mode c cs).map fun p => (JVal.jStr p.1, p.2)
      else if c == '{' then
        match skipJWS cs with
        | [] => none
        | d :: r => if d == '}' then some (JVal.jObj [], r) else parseObjRest mode fuel (d :: r) []
      else if c == '[' then
        match skipJWS cs with
        | [] => none
        | d :: r => if d == ']' then some (JVal.jArr [], r) else parseArrRest mode fuel (d :: r) []
      else if leadsWith (c :: cs) (trueKw mode) then some (JVal.jBool true, (c :: cs).drop 4)
      else if leadsWith (c :: cs) (falseKw mode) then some (JVal.jBool false, (c :: cs).drop 5)
      else if leadsWith (c :: cs) (nullKw mode) then some (JVal.jNull, (c :: cs).drop 4)
      else if c == '-' || c.isDigit then parseNum (c :: cs)
      else none

/-- Members of an object after `{` or `,` (at least one member expected). -/
def parseObjRest (mode : PMode) : Nat → Str → List (Str × JVal) → Option (JVal × Str)
  | 0, _, _ => none
  | fuel + 1, s, acc =>
    match skipJWS s with
    | [] => none
    | c :: cs =>
      if isQuote mode c then
        match parseStrBody mode c cs with
        | none => none
        | some (k, r1) =>
          match skipJWS r1 with
          | [] => none
          | d :: r2 =>
            if d == ':' then
              match parseJVal mode fuel r2 with
              | none => none
              | some (v, r3) =>
                match skipJWS r3 with
                | [] => none
                | e :: r4 =>
                  if e == ',' then parseObjRest mode fuel r4 (insertPy acc k v)
                  else if e == '}' then some (JVal.jObj (insertPy acc k v), r4)
                  else none
            else none
      else none

/-- Items of an array after `[` or `,` (at least one item expected). -/
def parseArrRest (mode : PMode) : Nat → Str → List JVal → Option (JVal × Str)
  | 0, _, _ => none
  | fuel + 1, s, acc =>
    match parseJVal mode fuel s with
    | none => none
    | some (v, r1) =>
      match skipJWS r1 with
      | [] => none
      | d :: r2 =>
        if d == ',' then parseArrRest mode fuel r2 (acc ++ [v])
        else if d == ']' then some (JVal.jArr (acc ++ [v]), r2)
        else none

end

/-- View of the tail of `parseObjRest` after an object member was parsed:
expect `,` and another member, or `}`. -/
def objAfterVal (mode : PMode) (fuel : Nat) (k : Str) (v : JVal) (r3 : Str)
    (acc : List (Str × JVal)) : Option (JVal × Str) :=
  match skipJWS r3 with
  | [] => none
  | e :: r4 =>
    if e == ',' then parseObjRest mode fuel r4 (insertPy acc k v)
    else if e == '}' then some (JVal.jObj (insertPy acc k v), r4)
    else none

/-- View of the tail of `parseObjRest` after an object key was parsed:
expect `:` and a value. -/
def objAfterKey (mode : PMode) (fuel : Nat) (k : Str) (r1 : Str)
    (acc : List (Str × JVal)) : Option (JVal × Str) :=
  match skipJWS r1 with
  | [] => none
  | d :: r2 =>
    if d == ':' then
      (parseJVal mode fuel r2).bind fun vr => objAfterVal mode fuel k vr.1 vr.2 acc
    else none

/-- Whole-input parse: the value must be followed only by whitespace. -/
def runParse (mode : PMode) (s : Str) : Option JVal :=
  match parseJVal mode (s.length + 1) s with
  | some (v, rest) => if (skipJWS rest).isEmpty then some v else none
  | none => none

def hexDigit (n : Nat) : Char :=
  if n < 10 then Char.ofNat (48 + n) else Char.ofNat (87 + n)

/-- `json.dumps` escaping of one character (`ensure_ascii=False`): quote,
backslash and control characters are escaped, everything else is kept. -/
def escapeChar (c : Char) : Str :=
  if c == '"' then ['\\', '"']
  else if c == '\\' then ['\\', '\\']
  else if c == '\n' then ['\\', 'n']
  else if c == '\t' then ['\\', 't']
  else if c == '\r' then ['\\', 'r']
  else if c == '\x08' then ['\\', 'b']
  else if c == '\x0c' then ['\\', 'f']
  else if c.toNat < 32 then ['\\', 'u', '0', '0', hexDigit (c.toNat / 16), hexDigit (c.toNat % 16)]
  else [c]

def escStr (s : Str) : Str := s.foldr (fun c acc => escapeChar c ++ acc) []

/-- `json.dumps` of a string. -/
def dumpStr (s : Str) : Str := '"' :: escStr s ++ ['"']

mutual

/-- `json.dumps(v, ensure_ascii=False)` with the default ", " / ": "
separators. -/
def dumpJVal : JVal → Str
  | JVal.jStr s => dumpStr s
  | JVal.jNum n => (toString n).data
  | JVal.jBool b => if b then "true".data else "false".data
  | JVal.jNull => "null".data
  | JVal.jArr l => '[' :: dumpItems l ++ [']']
  | JVal.jObj m => '{' :: dumpMembers m ++ ['}']

def dumpItems : List JVal → Str
  | [] => []
  | [v] => dumpJVal v
  | v :: v' :: vs => dumpJVal v ++ ',' :: ' ' :: dumpItems (v' :: vs)

def dumpMembers : List (Str × JVal) → Str
  | [] => []
  | [(k, v)] => dumpStr k ++ ':' :: ' ' :: dumpJVal v
  | (k, v) :: m :: ms => dumpStr k ++ ':' :: ' ' :: dumpJVal v ++ ',' :: ' ' :: dumpMembers (m :: ms)

end

/-- `stringify_value` (`modifiedHierarcy.py` lines 169-172): lists and dicts
are re-serialized with `json.dumps`, scalars go through Python `str`. -/
def stringify_value : JVal → Str
  | JVal.jStr s => s
  | JVal.jNum n => (toString n).data
  | JVal.jBool b => if b then "True".data else "False".data
  | JVal.jNull => "None".data
  | JVal.jArr l => dumpJVal (JVal.jArr l)
  | JVal.jObj m => dumpJVal (JVal.jObj m)

/-- A parsed meta-tag record: key/value pairs of flat strings, in insertion
order, as a Python `dict` of strings. -/
abbrev MetaRec := List (Str × Str)

/-- The 11 required meta-tag fields, in the order of `required_fields`. -/
def requiredFields : List Str :=
  ["character_primary".data, "character_secondary".data,
   "setting_primary".data, "setting_secondary".data,
   "theme_primary".data, "theme_secondary".data,
   "events_primary".data, "events_secondary".data,
   "emotions_primary".data, "emotions_secondary".data,
   "keywords".data]

def notSpecified : Str := "Not specified".data

def errorSentinel : Str := "Error parsing".data

/-- One step of the defaulting loop: `if field not in meta_dict:
meta_dict[field] = "Not specified"`. -/
def defaultStep (m : MetaRec) (k : Str) : MetaRec :=
  if m.any (fun p => p.1 == k) then m else m ++ [(k, notSpecified)]

/-- Fill each absent required field with "Not specified" (the
`for field in required_fields` loop). -/
def addDefaults (m : MetaRec) : MetaRec :=
  requiredFields.foldl defaultStep m

/-- The all-"Error parsing" record returned when parsing fails. -/
def errorRecord : MetaRec := requiredFields.map (fun k => (k, errorSentinel))

/-- The body of `parse_meta_tags_json` after cleaning: try strict JSON, then
a Python-literal parse, stringify every value, default missing required
fields; any failure (including a non-dict parse, whose `.items()` raises)
degrades to the error record. -/
def parseCleaned (c : Str) : MetaRec :=
  match (runParse PMode.json c).orElse (fun _ => runParse PMode.py c) with
  | some (JVal.jObj m) => addDefaults (m.map (fun p => (p.1, stringify_value p.2)))
  | some _ => errorRecord
  | none => errorRecord

/-- `StoryProcessor.parse_meta_tags_json`: clean the text, then parse it. -/
def parse_meta_tags_json (s : Str) : MetaRec :=
  parseCleaned (cleanJson s)

/-- Serialize a record back to JSON (`json.dumps` of the string-valued dict). -/
def serializeRecord (r : MetaRec) : Str :=
  dumpJVal (JVal.jObj (r.map (fun p => (p.1, JVal.jStr p.2))))

/-! ### Audio pipeline (`audioEval.py`) -/

/-- `SARVAM_PRICING["saarika:v2.5"]`: $0.00075 per second. -/
def sarvamPrice : ℚ := 0.00075

/-- `GEMINI_PRICING["input_text"]` = 0.3 / 1e6 dollars per token. -/
def geminiInputTextPrice : ℚ := 0.3 / 1000000

/-- `GEMINI_PRICING["input_audio"]` = 1 / 1e6 dollars per token. -/
def geminiInputAudioPrice : ℚ := 1 / 1000000

/-- `GEMINI_PRICING["output_text"]` = 2.5 / 1e6 dollars per token. -/
def geminiOutputTextPrice : ℚ := 2.5 / 1000000

/-- `estimate_tokens`: `len(text) / 4 if text else 0`. -/
def estimate_tokens (t : Str) : ℚ :=
  if t.isEmpty then 0 else (t.length : ℚ) / 4

/-- Outcome of the local duration probe in `get_audio_duration`: either the
decode succeeded with a length in milliseconds, or it failed and
`os.path.getsize` gave the byte size (or itself failed). -/
inductive DurationProbe where
  | decodeOk (milliseconds : ℚ)
  | decodeFail (sizeBytes : Option ℚ)
deriving DecidableEq

/-- `get_audio_duration`: decoded length in seconds when decoding succeeds;
otherwise the estimate `size / (1024*1024) * 60` floored at 1; 1 when even
the size probe fails. -/
def get_audio_duration : DurationProbe → ℚ
  | DurationProbe.decodeOk ms => ms / 1000
  | DurationProbe.decodeFail (some size) => max 1 (size / (1024 * 1024) * 60)
  | DurationProbe.decodeFail none => 1

/-- The Sarvam STT cost (`audioEval.py` line 96): duration times the
per-second price of `saarika:v2.5`. -/
def sarvamSttCost (probe : DurationProbe) : ℚ :=
  get_audio_duration probe * sarvamPrice

/-- The translation prompt built by `translate_with_gemini`. -/
def translatePrompt (sourceLang text : Str) : Str :=
  "Translate the following text from ".data ++ sourceLang ++
    " to English. Provide only the translation without any additional commentary:\n\n".data ++ text

/-- The token-based cost charged for one translation call
(`audioEval.py` lines 126-130). -/
def translateCallCost (prompt translation : Str) : ℚ :=
  estimate_tokens prompt * geminiInputTextPrice +
    estimate_tokens translation * geminiOutputTextPrice

/-- The fixed prompt of `speech_to_text_gemini`. -/
def geminiSttPrompt : Str :=
  ("Please transcribe and translate the following audio into English. " ++
    "Return only the final English transcription, without any commentary or extra text.").data

/-- The token-based cost of one Gemini STT call
(`audioEval.py` lines 189-197): text tokens plus `duration * 50` audio
tokens. -/
def geminiSttCost (probe : DurationProbe) (transcript : Str) : ℚ :=
  estimate_tokens geminiSttPrompt * geminiInputTextPrice +
    get_audio_duration probe * 50 * geminiInputAudioPrice +
    estimate_tokens transcript * geminiOutputTextPrice

/-- Outcome of `speech_to_text_sarvam`: a transcript with detected language
and latency, or a raised exception carrying a message. -/
inductive SarvamOutcome where
  | ok (transcript lang : Str) (latency : ℚ)
  | err (msg : Str)
deriving DecidableEq

/-- Outcome of `translate_with_gemini`: an HTTP-ok response with the
(possibly empty) extracted text and latency, or a non-ok response, which the
function converts to `(None, latency, 0)` without raising. -/
inductive TranslateOutcome where
  | ok (text : Str) (latency : ℚ)
  | httpErr (latency : ℚ)
deriving DecidableEq

/-- Outcome of `speech_to_text_gemini`: generated text with the successful
round-trip latency, or a raised exception (quota exhausted / HTTP error). -/
inductive GeminiOutcome where
  | ok (text : Str) (latency : ℚ)
  | err (msg : Str)
deriving DecidableEq

/-- All external behavior relevant to the processing of one audio file. -/
structure FileEnv where
  probe : DurationProbe
  sarvam : SarvamOutcome
  translate : TranslateOutcome
  gemini : GeminiOutcome
deriving DecidableEq

/-- One CSV cell: a numeric value (before display formatting), a text, or
the "N/A" sentinel. -/
inductive Cell where
  | num (q : ℚ)
  | text (s : Str)
  | na
deriving DecidableEq

/-- One CSV data row of the audio pipeline, in column order. -/
structure Row where
  filename : Cell
  duration : Cell
  sarvamResponse : Cell
  sarvamTotalLatency : Cell
  sarvamTotalCost : Cell
  translationNeeded : Cell
  geminiResponse : Cell
  geminiLatency : Cell
  geminiCost : Cell
deriving DecidableEq

/-- The running totals mutated by `process_all_audio_files`. -/
structure Totals where
  sarvamCost : ℚ
  geminiCost : ℚ
  translationCost : ℚ
  sarvamTime : ℚ
  geminiTime : ℚ
  translationTime : ℚ
deriving DecidableEq

def Totals.zero : Totals := ⟨0, 0, 0, 0, 0, 0⟩

/-- The error row appended when processing a file raises. -/
def errorRow (name msg : Str) : Row :=
  { filename := Cell.text name
    duration := Cell.na
    sarvamResponse := Cell.text ("ERROR: ".data ++ msg)
    sarvamTotalLatency := Cell.na
    sarvamTotalCost := Cell.na
    translationNeeded := Cell.na
    geminiResponse := Cell.text ("ERROR: ".data ++ msg)
    geminiLatency := Cell.na
    geminiCost := Cell.na }

/-- Languages that need no translation: `['en-IN', 'en']`. -/
def enLangs : List Str := ["en-IN".data, "en".data]

def transLatOf : TranslateOutcome → ℚ
  | TranslateOutcome.ok _ l => l
  | TranslateOutcome.httpErr l => l

/-- The cost returned by the translation call: computed from the prompt and
the extracted text on an ok response, 0 on an HTTP error. -/
def transCostOf (lang transcript : Str) : TranslateOutcome → ℚ
  | TranslateOutcome.ok tx _ => translateCallCost (translatePrompt lang transcript) tx
  | TranslateOutcome.httpErr _ => 0

/-- The response kept for the Sarvam column: the translation when it is
usable (non-None, non-empty), otherwise the untranslated transcript. -/
def transRespOf (transcript : Str) : TranslateOutcome → Str
  | TranslateOutcome.ok tx _ => if tx.isEmpty then transcript else tx
  | TranslateOutcome.httpErr _ => transcript

/-- The body of the per-file loop of `process_all_audio_files`
(lines 213-274): returns the produced row and the updated totals.  Totals
additions happen in program order, so additions made before a raising stage
survive into the batch totals. -/
def processOne (name : Str) (env : FileEnv) (t : Totals) : Row × Totals :=
  match env.sarvam with
  | SarvamOutcome.err msg => (errorRow name msg, t)
  | SarvamOutcome.ok transcript lang sLat =>
    let sCost := sarvamSttCost env.probe
    let t1 := { t with sarvamTime := t.sarvamTime + sLat, sarvamCost := t.sarvamCost + sCost }
    let needs := !(enLangs.contains lang)
    let tLat := if needs then transLatOf env.translate else 0
    let tCost := if needs then transCostOf lang transcript env.translate else 0
    let resp := if needs then transRespOf transcript env.translate else transcript
    let t2 := if needs then
        { t1 with translationTime := t1.translationTime + tLat,
                  translationCost := t1.translationCost + tCost }
      else t1
    match env.gemini with
    | GeminiOutcome.err msg => (errorRow name msg, t2)
    | GeminiOutcome.ok gTx gLat =>
      let gCost := geminiSttCost env.probe gTx
      let t3 := { t2 with geminiTime := t2.geminiTime + gLat, geminiCost := t2.geminiCost + gCost }
      let dur := get_audio_duration env.probe
      ({ filename := Cell.text name
         duration := Cell.num dur
         sarvamResponse := Cell.text resp
         sarvamTotalLatency := Cell.num (sLat + tLat)
         sarvamTotalCost := Cell.num (sCost + tCost)
         translationNeeded := Cell.text (if needs then "Yes".data else "No".data)
         geminiResponse := Cell.text gTx
         geminiLatency := Cell.num gLat
         geminiCost := Cell.num gCost }, t3)

/-- The final TOTALS row (lines 282-292). -/
def totalsRow (t : Totals) : Row :=
  { filename := Cell.text "TOTALS".data
    duration := Cell.text []
    sarvamResponse := Cell.text []
    sarvamTotalLatency := Cell.num (t.sarvamTime + t.translationTime)
    sarvamTotalCost := Cell.num (t.sarvamCost + t.translationCost)
    translationNeeded := Cell.text []
    geminiResponse := Cell.text []
    geminiLatency := Cell.num t.geminiTime
    geminiCost := Cell.num t.geminiCost }

/-- One iteration of the batch loop: process a file, append its row, thread
the totals. -/
def stepFile (st : List Row × Totals) (f : Str × FileEnv) : List Row × Totals :=
  let rt := processOne f.1 f.2 st.2
  (st.1 ++ [rt.1], rt.2)

/-- `process_all_audio_files`: fold the per-file loop over the batch, append
the TOTALS row; returns the data rows and the final totals. -/
def process_all_audio_files (files : List (Str × FileEnv)) : List Row × Totals :=
  let st := files.foldl stepFile ([], Totals.zero)
  (st.1 ++ [totalsRow st.2], st.2)

/-! ### Theorems -/

lemma estimate_tokens_eq (t : Str) : estimate_tokens t = (t.length : ℚ) / 4 := by
  cases t with
  | nil => simp [estimate_tokens]
  | cons c cs => simp [estimate_tokens]

/-- Claim C7: for every prompt text and output text, the translation call's
token-based cost is `(len(prompt)/4) * input_text_price +
(len(output)/4) * output_text_price` (token count estimated as character
length over 4); in particular a 400-character prompt and an 80-character
output at prices 0.3e-6 and 2.5e-6 per token cost exactly 0.00008. -/
theorem translate_cost_formula :
    (∀ p o : Str, translateCallCost p o =
      ((p.length : ℚ) / 4) * (0.3 / 1000000) + ((o.length : ℚ) / 4) * (2.5 / 1000000))
    ∧ ∀ p o : Str, p.length = 400 → o.length = 80 →
        translateCallCost p o = 0.00008 := by
  constructor
  · intro p o
    simp [translateCallCost, estimate_tokens_eq, geminiInputTextPrice, geminiOutputTextPrice]
  · intro p o hp ho
    simp [translateCallCost, estimate_tokens_eq, geminiInputTextPrice, geminiOutputTextPrice,
      hp, ho]
    norm_num

theorem translate_cost_formula_witness :
    (List.replicate 400 'a').length = 400 ∧ (List.replicate 80 'b').length = 80 ∧
      translateCallCost (List.replicate 400 'a') (List.replicate 80 'b') = 0.00008 :=
  ⟨List.length_replicate _ _, List.length_replicate _ _,
    translate_cost_formula.2 (List.replicate 400 'a') (List.replicate 80 'b')
      (List.length_replicate _ _) (List.length_replicate _ _)⟩

/-- Claim C8: when decoding the audio fails, the duration used for cost
computation is the fallback `file_size_bytes / (1024*1024) * 60` floored at
1 second, so the Sarvam cost of the file is strictly positive. -/
theorem duration_fallback_formula (size : ℚ) :
    get_audio_duration (DurationProbe.decodeFail (some size)) = max 1 (size / (1024 * 1024) * 60)
    ∧ 1 ≤ get_audio_duration (DurationProbe.decodeFail (some size))
    ∧ 0 < sarvamSttCost (DurationProbe.decodeFail (some size)) := by
  refine ⟨rfl, le_max_left _ _, ?_⟩
  have h1 : (1 : ℚ) ≤ get_audio_duration (DurationProbe.decodeFail (some size)) :=
    le_max_left _ _
  have h2 : (0 : ℚ) < sarvamPrice := by norm_num [sarvamPrice]
  have := mul_le_mul_of_nonneg_right h1 (le_of_lt h2)
  unfold sarvamSttCost
  nlinarith

lemma processOne_filename (name : Str) (env : FileEnv) (t : Totals) :
    (processOne name env t).1.filename = Cell.text name := by
  rcases env with ⟨probe, sarvam, translate, gemini⟩
  cases sarvam <;> cases gemini <;> simp [processOne, errorRow]

lemma foldl_stepFile_filenames (files : List (Str × FileEnv)) (rs : List Row) (t : Totals) :
    (files.foldl stepFile (rs, t)).1.map Row.filename
      = rs.map Row.filename ++ files.map (fun f => Cell.text f.1) := by
  induction files generalizing rs t with
  | nil => simp
  | cons f fs ih =>
    simp only [List.foldl_cons, List.map_cons]
    rw [show stepFile (rs, t) f = (rs ++ [(processOne f.1 f.2 t).1], (processOne f.1 f.2 t).2)
      from rfl]
    rw [ih]
    simp [processOne_filename]

/-- Claim C1: a batch run over n input files emits exactly n + 1 data rows:
one row per input file, in order (carrying that file's name, whether the
file succeeded or raised), plus one final TOTALS row. -/
theorem audio_batch_row_count (files : List (Str × FileEnv)) :
    (process_all_audio_files files).1.length = files.length + 1
    ∧ (process_all_audio_files files).1.map Row.filename
        = files.map (fun f => Cell.text f.1) ++ [Cell.text "TOTALS".data] := by
  have hmap : (process_all_audio_files files).1.map Row.filename
      = files.map (fun f => Cell.text f.1) ++ [Cell.text "TOTALS".data] := by
    show ((files.foldl stepFile ([], Totals.zero)).1 ++ [totalsRow _]).map Row.filename = _
    rw [List.map_append, foldl_stepFile_filenames]
    simp [totalsRow]
  refine ⟨?_, hmap⟩
  have := congrArg List.length hmap
  simpa using this

/-- Claim C9: for a file whose detected language is not English the driver
issues a translation call; it falls back to the untranslated transcript
exactly when the call returns no usable text (HTTP failure or empty text),
and in every case the latency and cost incurred by the attempt (cost 0 on an
HTTP failure, which is what the call returns) are added to the file's
reported Sarvam totals and to the batch translation totals; the file still
produces a success row. -/
theorem translation_fallback_accounting
    (name transcript lang gTx : Str) (probe : DurationProbe) (sLat gLat : ℚ)
    (tres : TranslateOutcome) (t : Totals)
    (h : enLangs.contains lang = false) :
    (processOne name ⟨probe, SarvamOutcome.ok transcript lang sLat, tres,
        GeminiOutcome.ok gTx gLat⟩ t).1.sarvamResponse
      = Cell.text (transRespOf transcript tres)
    ∧ (processOne name ⟨probe, SarvamOutcome.ok transcript lang sLat, tres,
        GeminiOutcome.ok gTx gLat⟩ t).1.sarvamTotalCost
      = Cell.num (sarvamSttCost probe + transCostOf lang transcript tres)
    ∧ (processOne name ⟨probe, SarvamOutcome.ok transcript lang sLat, tres,
        GeminiOutcome.ok gTx gLat⟩ t).1.sarvamTotalLatency
      = Cell.num (sLat + transLatOf tres)
    ∧ (processOne name ⟨probe, SarvamOutcome.ok transcript lang sLat, tres,
        GeminiOutcome.ok gTx gLat⟩ t).1.translationNeeded = Cell.text "Yes".data
    ∧ (processOne name ⟨probe, SarvamOutcome.ok transcript lang sLat, tres,
        GeminiOutcome.ok gTx gLat⟩ t).2.translationCost
      = t.translationCost + transCostOf lang transcript tres
    ∧ (processOne name ⟨probe, SarvamOutcome.ok transcript lang sLat, tres,
        GeminiOutcome.ok gTx gLat⟩ t).2.translationTime
      = t.translationTime + transLatOf tres := by
  have hmem : lang ∉ enLangs := by simpa using h
  simp [processOne, hmem]

theorem translation_fallback_accounting_witness :
    enLangs.contains "hi-IN".data = false ∧
    ((processOne "a.mp3".data ⟨DurationProbe.decodeOk 2000,
        SarvamOutcome.ok "namaste".data "hi-IN".data 2, TranslateOutcome.httpErr 5,
        GeminiOutcome.ok "hello".data 4⟩ Totals.zero).1.sarvamResponse
      = Cell.text (transRespOf "namaste".data (TranslateOutcome.httpErr 5))
    ∧ (processOne "a.mp3".data ⟨DurationProbe.decodeOk 2000,
        SarvamOutcome.ok "namaste".data "hi-IN".data 2, TranslateOutcome.httpErr 5,
        GeminiOutcome.ok "hello".data 4⟩ Totals.zero).1.sarvamTotalCost
      = Cell.num (sarvamSttCost (DurationProbe.decodeOk 2000)
          + transCostOf "hi-IN".data "namaste".data (TranslateOutcome.httpErr 5))
    ∧ (processOne "a.mp3".data ⟨DurationProbe.decodeOk 2000,
        SarvamOutcome.ok "namaste".data "hi-IN".data 2, TranslateOutcome.httpErr 5,
        GeminiOutcome.ok "hello".data 4⟩ Totals.zero).1.sarvamTotalLatency
      = Cell.num (2 + transLatOf (TranslateOutcome.httpErr 5))
    ∧ (processOne "a.mp3".data ⟨DurationProbe.decodeOk 2000,
        SarvamOutcome.ok "namaste".data "hi-IN".data 2, TranslateOutcome.httpErr 5,
        GeminiOutcome.ok "hello".data 4⟩ Totals.zero).1.translationNeeded
      = Cell.text "Yes".data
    ∧ (processOne "a.mp3".data ⟨DurationProbe.decodeOk 2000,
        SarvamOutcome.ok "namaste".data "hi-IN".data 2, TranslateOutcome.httpErr 5,
        GeminiOutcome.ok "hello".data 4⟩ Totals.zero).2.translationCost
      = Totals.zero.translationCost
          + transCostOf "hi-IN".data "namaste".data (TranslateOutcome.httpErr 5)
    ∧ (processOne "a.mp3".data ⟨DurationProbe.decodeOk 2000,
        SarvamOutcome.ok "namaste".data "hi-IN".data 2, TranslateOutcome.httpErr 5,
        GeminiOutcome.ok "hello".data 4⟩ Totals.zero).2.translationTime
      = Totals.zero.translationTime + transLatOf (TranslateOutcome.httpErr 5)) :=
  ⟨by decide,
    translation_fallback_accounting "a.mp3".data "namaste".data "hi-IN".data "hello".data
      (DurationProbe.decodeOk 2000) 2 4 (TranslateOutcome.httpErr 5) Totals.zero (by decide)⟩

/-- Claim C10: for a file whose Sarvam transcription (and translation
attempt) ran but whose Gemini transcription raised, the row is the all-"N/A"
error row, yet the Sarvam and translation cost/latency accumulated before the
failure remain in the batch totals, so the TOTALS row sums per-stage values
accrued before each failure, not values of successful rows only. -/
theorem error_row_keeps_totals
    (name transcript lang msg : Str) (probe : DurationProbe) (sLat : ℚ)
    (tres : TranslateOutcome) (t : Totals)
    (h : enLangs.contains lang = false) :
    processOne name ⟨probe, SarvamOutcome.ok transcript lang sLat, tres,
        GeminiOutcome.err msg⟩ t
      = (errorRow name msg,
         { t with
            sarvamCost := t.sarvamCost + sarvamSttCost probe
            sarvamTime := t.sarvamTime + sLat
            translationCost := t.translationCost + transCostOf lang transcript tres
            translationTime := t.translationTime + transLatOf tres })
    ∧ (process_all_audio_files
        [(name, ⟨probe, SarvamOutcome.ok transcript lang sLat, tres,
            GeminiOutcome.err msg⟩)]).1.map Row.sarvamTotalCost
      = [Cell.na, Cell.num (sarvamSttCost probe + transCostOf lang transcript tres)] := by
  have hmem : lang ∉ enLangs := by simpa using h
  constructor
  · simp [processOne, hmem]
  · simp [process_all_audio_files, stepFile, processOne, hmem, totalsRow, errorRow, Totals.zero]

theorem error_row_keeps_totals_witness :
    enLangs.contains "ta-IN".data = false ∧
    (processOne "b.wav".data ⟨DurationProbe.decodeFail (some 1048576),
        SarvamOutcome.ok "vanakkam".data "ta-IN".data 3, TranslateOutcome.ok "greetings".data 6,
        GeminiOutcome.err "quota".data⟩ Totals.zero
      = (errorRow "b.wav".data "quota".data,
         { Totals.zero with
            sarvamCost := Totals.zero.sarvamCost
              + sarvamSttCost (DurationProbe.decodeFail (some 1048576))
            sarvamTime := Totals.zero.sarvamTime + 3
            translationCost := Totals.zero.translationCost
              + transCostOf "ta-IN".data "vanakkam".data (TranslateOutcome.ok "greetings".data 6)
            translationTime := Totals.zero.translationTime
              + transLatOf (TranslateOutcome.ok "greetings".data 6) })
    ∧ (process_all_audio_files
        [("b.wav".data, ⟨DurationProbe.decodeFail (some 1048576),
            SarvamOutcome.ok "vanakkam".data "ta-IN".data 3,
            TranslateOutcome.ok "greetings".data 6,
            GeminiOutcome.err "quota".data⟩)]).1.map Row.sarvamTotalCost
      = [Cell.na, Cell.num (sarvamSttCost (DurationProbe.decodeFail (some 1048576))
          + transCostOf "ta-IN".data "vanakkam".data
              (TranslateOutcome.ok "greetings".data 6))]) :=
  ⟨by decide,
    error_row_keeps_totals "b.wav".data "vanakkam".data "ta-IN".data "quota".data
      (DurationProbe.decodeFail (some 1048576)) 3 (TranslateOutcome.ok "greetings".data 6)
      Totals.zero (by decide)⟩

/-! ### Structured-output parser: error path and key invariants -/

/-- Claim C4: when both the strict JSON parse and the permissive
Python-literal parse fail on the cleaned input, the parser returns (rather
than raising) the record mapping every one of the 11 keys to the error
sentinel "Error parsing", so the batch continues. -/
theorem parse_total_failure (s : Str)
    (hj : runParse PMode.json (cleanJson s) = none)
    (hp : runParse PMode.py (cleanJson s) = none) :
    parse_meta_tags_json s = errorRecord := by
  simp [parse_meta_tags_json, parseCleaned, hj, hp, Option.orElse]

theorem parse_total_failure_witness :
    runParse PMode.json (cleanJson "This is a story about a cat.".data) = none ∧
    runParse PMode.py (cleanJson "This is a story about a cat.".data) = none ∧
    parse_meta_tags_json "This is a story about a cat.".data = errorRecord :=
  ⟨by rfl, by rfl, parse_total_failure "This is a story about a cat.".data (by rfl) (by rfl)⟩

lemma mem_keys_defaultStep (m : MetaRec) (k k' : Str) (h : k ∈ m.map (fun p => p.1)) :
    k ∈ (defaultStep m k').map (fun p => p.1) := by
  unfold defaultStep
  split
  · exact h
  · simp only [List.map_append, List.mem_append]
    exact Or.inl h

lemma mem_keys_foldl_of_mem (l : List Str) (m : MetaRec) (k : Str)
    (h : k ∈ m.map (fun p => p.1)) :
    k ∈ (l.foldl defaultStep m).map (fun p => p.1) := by
  induction l generalizing m with
  | nil => exact h
  | cons a l ih => exact ih _ (mem_keys_defaultStep m k a h)

lemma mem_keys_foldl_of_mem_list (l : List Str) (m : MetaRec) (k : Str) (h : k ∈ l) :
    k ∈ (l.foldl defaultStep m).map (fun p => p.1) := by
  induction l generalizing m with
  | nil => cases h
  | cons a l ih =>
    rcases List.mem_cons.1 h with rfl | hk
    · refine mem_keys_foldl_of_mem l _ k ?_
      unfold defaultStep
      split
      · next hany =>
        rcases List.any_eq_true.1 hany with ⟨p, hp, he⟩
        have : p.1 = k := by simpa using he
        subst this
        exact List.mem_map.2 ⟨p, hp, rfl⟩
      · simp
    · rw [List.foldl_cons]
      exact ih (defaultStep m a) hk

lemma mem_keys_addDefaults (m : MetaRec) (k : Str) (h : k ∈ requiredFields) :
    k ∈ (addDefaults m).map (fun p => p.1) :=
  mem_keys_foldl_of_mem_list _ _ _ h

lemma errorRecord_keys : errorRecord.map (fun p => p.1) = requiredFields := by
  decide

/-- Shared helper: every required key is present in every parser output. -/
lemma parse_mem_keys (s : Str) (k : Str) (h : k ∈ requiredFields) :
    k ∈ (parse_meta_tags_json s).map (fun p => p.1) := by
  unfold parse_meta_tags_json parseCleaned
  rcases hX : (runParse PMode.json (cleanJson s)).orElse
      (fun _ => runParse PMode.py (cleanJson s)) with _ | v
  · rw [errorRecord_keys]; exact h
  · cases v with
    | jObj m => exact mem_keys_addDefaults _ _ h
    | jStr t => rw [errorRecord_keys]; exact h
    | jNum n => rw [errorRecord_keys]; exact h
    | jBool b => rw [errorRecord_keys]; exact h
    | jNull => rw [errorRecord_keys]; exact h
    | jArr l => rw [errorRecord_keys]; exact h

/-- Claim C2 (amended): every returned record contains all 11 required keys
(parse failures fill them with a sentinel), but a key outside the fixed set
that occurs in the parsed object is retained as well, so the record need not
consist of exactly the 11 keys. -/
theorem parse_record_required_keys (s : Str) (k : Str) (h : k ∈ requiredFields) :
    k ∈ (parse_meta_tags_json s).map (fun p => p.1) :=
  parse_mem_keys s k h

theorem parse_record_required_keys_witness :
    "keywords".data ∈ requiredFields ∧
    "keywords".data ∈ (parse_meta_tags_json "no json here".data).map (fun p => p.1) :=
  ⟨by decide, parse_record_required_keys "no json here".data "keywords".data (by decide)⟩

/-- Claim C2 counterexample: the record returned for the input
`{"extra": "x"}` contains the key "extra", which is outside the fixed set of
11 category keys. -/
theorem parse_record_extra_key_counterexample :
    "extra".data ∈ (parse_meta_tags_json "\x7b\"extra\": \"x\"\x7d".data).map (fun p => p.1)
    ∧ "extra".data ∉ requiredFields := by
  constructor
  · decide
  · decide

/-! ### Missing-field defaulting (first-match lookup on records) -/

def lookupVal (m : List (Str × JVal)) (k : Str) : Option JVal :=
  (m.find? (fun p => p.1 == k)).map (fun p => p.2)

def lookupRec (m : MetaRec) (k : Str) : Option Str :=
  (m.find? (fun p => p.1 == k)).map (fun p => p.2)

lemma foldl_defaultStep_append (l : List Str) (m : MetaRec) :
    ∃ l', l.foldl defaultStep m = m ++ l' := by
  induction l generalizing m with
  | nil => exact ⟨[], by simp⟩
  | cons a l ih =>
    have h0 : ∃ l0, defaultStep m a = m ++ l0 := by
      unfold defaultStep
      split
      · exact ⟨[], by simp⟩
      · exact ⟨[(a, notSpecified)], rfl⟩
    rcases h0 with ⟨l0, h0⟩
    rcases ih (defaultStep m a) with ⟨l1, h1⟩
    exact ⟨l0 ++ l1, by rw [List.foldl_cons, h1, h0, List.append_assoc]⟩

lemma find?_foldl_defaultStep_of_some (l : List Str) (m : MetaRec) (k : Str) (p : Str × Str)
    (h : m.find? (fun q => q.1 == k) = some p) :
    (l.foldl defaultStep m).find? (fun q => q.1 == k) = some p := by
  rcases foldl_defaultStep_append l m with ⟨l', hl⟩
  rw [hl, List.find?_append, h]
  rfl

lemma find?_foldl_defaultStep_of_none (l : List Str) (m : MetaRec) (k : Str)
    (hk : k ∈ l) (hnone : m.find? (fun q => q.1 == k) = none) :
    (l.foldl defaultStep m).find? (fun q => q.1 == k) = some (k, notSpecified) := by
  induction l generalizing m with
  | nil => cases hk
  | cons a l ih =>
    rw [List.foldl_cons]
    by_cases hak : a = k
    · subst hak
      have hany : m.any (fun q => q.1 == a) = false := by
        rcases hb : m.any (fun q => q.1 == a) with _ | _
        · rfl
        · rcases List.any_eq_true.1 hb with ⟨x, hx, he⟩
          have := List.find?_eq_none.1 hnone x hx
          exact absurd he this
      have hds : defaultStep m a = m ++ [(a, notSpecified)] := by
        unfold defaultStep
        rw [hany]
        simp
      have hfind : (defaultStep m a).find? (fun q => q.1 == a) = some (a, notSpecified) := by
        rw [hds, List.find?_append, hnone]
        simp
      exact find?_foldl_defaultStep_of_some l _ _ _ hfind
    · have hk' : k ∈ l := by
        rcases List.mem_cons.1 hk with rfl | h
        · exact absurd rfl hak
        · exact h
      have hstep : (defaultStep m a).find? (fun q => q.1 == k) = none := by
        unfold defaultStep
        split
        · exact hnone
        · rw [List.find?_append, hnone]
          simp [hak]
      exact ih _ hk' hstep

/-- Claim C3: for an input whose cleaned form parses as a JSON object, every
key whose value is a string is preserved verbatim in the returned record,
and every required key absent from the object is mapped to
"Not specified". -/
theorem parse_preserves_and_defaults (s : Str) (m : List (Str × JVal))
    (hparse : runParse PMode.json (cleanJson s) = some (JVal.jObj m)) :
    (∀ k v, lookupVal m k = some (JVal.jStr v) →
      lookupRec (parse_meta_tags_json s) k = some v)
    ∧ (∀ k, k ∈ requiredFields → lookupVal m k = none →
        lookupRec (parse_meta_tags_json s) k = some notSpecified) := by
  have hrec : parse_meta_tags_json s
      = addDefaults (m.map (fun p => (p.1, stringify_value p.2))) := by
    simp [parse_meta_tags_json, parseCleaned, hparse, Option.orElse]
  constructor
  · intro k v hv
    rcases hfind : m.find? (fun q => q.1 == k) with _ | p
    · simp [lookupVal, hfind] at hv
    · have hp2 : p.2 = JVal.jStr v := by simpa [lookupVal, hfind] using hv
      have hmap : (m.map (fun p => (p.1, stringify_value p.2))).find? (fun q => q.1 == k)
          = some (p.1, stringify_value p.2) := by
        rw [List.find?_map]
        have hc : ((fun q : Str × Str => q.1 == k) ∘ fun p : Str × JVal =>
            (p.1, stringify_value p.2)) = fun p : Str × JVal => p.1 == k := rfl
        rw [hc, hfind]
        rfl
      rw [hrec]
      unfold addDefaults lookupRec
      rw [find?_foldl_defaultStep_of_some requiredFields _ _ _ hmap]
      simp [hp2, stringify_value]
  · intro k hk hnone
    have hfind : m.find? (fun q => q.1 == k) = none := by
      rcases h : m.find? (fun q => q.1 == k) with _ | p
      · exact h
      · simp [lookupVal, h] at hnone
    have hmap : (m.map (fun p => (p.1, stringify_value p.2))).find? (fun q => q.1 == k)
        = none := by
      rw [List.find?_map]
      have hc : ((fun q : Str × Str => q.1 == k) ∘ fun p : Str × JVal =>
          (p.1, stringify_value p.2)) = fun p : Str × JVal => p.1 == k := rfl
      rw [hc, hfind]
      rfl
    rw [hrec]
    unfold addDefaults lookupRec
    rw [find?_foldl_defaultStep_of_none requiredFields _ k hk hmap]
    rfl

/-- Concrete input for the defaulting witness: 8 of the 11 keys present. -/
def c3Input : Str :=
  ("\x7b\"character_primary\": \"Hero\", \"character_secondary\": \"Friend\", " ++
   "\"setting_primary\": \"Forest\", \"setting_secondary\": \"Village\", " ++
   "\"theme_primary\": \"Courage\", \"theme_secondary\": \"Friendship\", " ++
   "\"events_primary\": \"Quest\", \"events_secondary\": \"Feast\"\x7d").data

def c3Obj : List (Str × JVal) :=
  [("character_primary".data, JVal.jStr "Hero".data),
   ("character_secondary".data, JVal.jStr "Friend".data),
   ("setting_primary".data, JVal.jStr "Forest".data),
   ("setting_secondary".data, JVal.jStr "Village".data),
   ("theme_primary".data, JVal.jStr "Courage".data),
   ("theme_secondary".data, JVal.jStr "Friendship".data),
   ("events_primary".data, JVal.jStr "Quest".data),
   ("events_secondary".data, JVal.jStr "Feast".data)]

set_option maxRecDepth 40000 in
theorem parse_preserves_and_defaults_witness :
    runParse PMode.json (cleanJson c3Input) = some (JVal.jObj c3Obj) ∧
    lookupVal c3Obj "character_primary".data = some (JVal.jStr "Hero".data) ∧
    lookupRec (parse_meta_tags_json c3Input) "character_primary".data = some "Hero".data ∧
    lookupVal c3Obj "keywords".data = none ∧
    "keywords".data ∈ requiredFields ∧
    lookupRec (parse_meta_tags_json c3Input) "keywords".data = some notSpecified :=
  ⟨by rfl, by rfl,
   (parse_preserves_and_defaults c3Input c3Obj (by rfl)).1 "character_primary".data
     "Hero".data (by rfl),
   by rfl, by decide,
   (parse_preserves_and_defaults c3Input c3Obj (by rfl)).2 "keywords".data (by decide) (by rfl)⟩

/-! ### Fence stripping -/

lemma fenceOpen_eq : fenceOpen = '`' :: '`' :: '`' :: 'j' :: 's' :: 'o' :: 'n' :: [] := rfl

lemma fenceClose_eq : fenceClose = '`' :: '`' :: '`' :: [] := rfl

lemma stripL_cons_of_neg (c : Char) (l : Str) (h : isPyWS c = false) :
    stripL (c :: l) = c :: l := by
  simp [stripL, List.dropWhile_cons, h]

lemma stripR_append_of_neg (l : Str) (c : Char) (h : isPyWS c = false) :
    stripR (l ++ [c]) = l ++ [c] := by
  simp [stripR, List.reverse_append, List.dropWhile_cons, h]

lemma dropWhile_idem (p : Char → Bool) (l : Str) :
    List.dropWhile p (List.dropWhile p l) = List.dropWhile p l := by
  induction l with
  | nil => rfl
  | cons a l ih =>
    by_cases h : p a
    · simp [List.dropWhile_cons, h, ih]
    · simp [List.dropWhile_cons, h]

lemma stripL_idem (s : Str) : stripL (stripL s) = stripL s := dropWhile_idem _ _

lemma stripR_idem (s : Str) : stripR (stripR s) = stripR s := by
  simp [stripR, List.reverse_reverse, dropWhile_idem]

lemma stripL_head_false : ∀ (u : Str) (c : Char) (t : Str),
    stripL u = c :: t → isPyWS c = false := by
  intro u
  induction u with
  | nil => intro c t h; simp [stripL] at h
  | cons a u ih =>
    intro c t h
    rw [stripL, List.dropWhile_cons] at h
    split at h
    · exact ih c t h
    · next hcond =>
      injection h with h1 h2
      rw [← h1]
      cases h' : isPyWS a
      · rfl
      · exact absurd h' hcond

lemma exists_stripR_decomp (u : Str) : ∃ w, u = stripR u ++ w := by
  refine ⟨(u.reverse.takeWhile isPyWS).reverse, ?_⟩
  conv_lhs => rw [← List.reverse_reverse u, ← List.takeWhile_append_dropWhile isPyWS u.reverse]
  rw [List.reverse_append]
  rfl

lemma stripL_stripR_of_stripL (u : Str) (h : stripL u = u) :
    stripL (stripR u) = stripR u := by
  rcases hde : stripR u with _ | ⟨c, cs⟩
  · rfl
  · have hc : isPyWS c = false := by
      rcases exists_stripR_decomp u with ⟨w, hw⟩
      rw [hde] at hw
      exact stripL_head_false u c (cs ++ w) (by rw [h, hw, List.cons_append])
    exact stripL_cons_of_neg c cs hc

lemma pyStrip_idem (s : Str) : pyStrip (pyStrip s) = pyStrip s := by
  unfold pyStrip
  rw [stripL_stripR_of_stripL (stripL s) (stripL_idem s), stripR_idem]

lemma pyStrip_of_ends (c d : Char) (l : Str) (hc : isPyWS c = false) (hd : isPyWS d = false) :
    pyStrip (c :: (l ++ [d])) = c :: (l ++ [d]) := by
  unfold pyStrip
  rw [stripL_cons_of_neg c _ hc,
    show c :: (l ++ [d]) = (c :: l) ++ [d] from rfl,
    stripR_append_of_neg (c :: l) d hd]

lemma leadsWith_append_self : ∀ (p s : Str), leadsWith (p ++ s) p = true := by
  intro p
  induction p with
  | nil => intro s; cases s <;> rfl
  | cons a p ih => intro s; simp [leadsWith, ih]

lemma clean_wrap (s : Str) :
    cleanJson (fenceOpen ++ s ++ fenceClose) = pyStrip s := by
  have hshape : fenceOpen ++ s ++ fenceClose
      = '`' :: ((('`' :: '`' :: 'j' :: 's' :: 'o' :: 'n' :: []) ++ s ++ ('`' :: '`' :: [])) ++ ['`']) := by
    simp [fenceOpen_eq, fenceClose_eq]
  have h1 : pyStrip (fenceOpen ++ s ++ fenceClose) = fenceOpen ++ s ++ fenceClose := by
    rw [hshape]
    exact pyStrip_of_ends _ _ _ (by decide) (by decide)
  have h2 : leadsWith (fenceOpen ++ s ++ fenceClose) fenceOpen = true := by
    rw [List.append_assoc]
    exact leadsWith_append_self fenceOpen (s ++ fenceClose)
  have h3 : (fenceOpen ++ s ++ fenceClose).drop 7 = s ++ fenceClose := by
    rw [List.append_assoc]
    exact List.drop_left' rfl
  have h4 : trailsWith (s ++ fenceClose) fenceClose = true := by
    unfold trailsWith
    rw [List.reverse_append]
    exact leadsWith_append_self _ _
  have h5 : (s ++ fenceClose).take ((s ++ fenceClose).length - 3) = s := by
    have hlen : (s ++ fenceClose).length = s.length + 3 := by
      simp [fenceClose_eq]
    rw [hlen]
    have : s.length + 3 - 3 = s.length := by omega
    rw [this]
    exact List.take_left' rfl
  unfold cleanJson
  rw [h1]
  unfold dropOpenFence
  rw [h2]
  simp only [if_true]
  rw [h3]
  unfold dropCloseFence
  rw [h4]
  simp only [if_true]
  rw [h5]

lemma clean_of_no_fence (s : Str)
    (h1 : leadsWith (pyStrip s) fenceOpen = false)
    (h2 : trailsWith (pyStrip s) fenceClose = false) :
    cleanJson s = pyStrip s := by
  unfold cleanJson dropOpenFence dropCloseFence
  rw [h1]
  simp only [Bool.false_eq_true, if_false]
  rw [h2]
  simp only [Bool.false_eq_true, if_false]
  exact pyStrip_idem s

/-- Claim C6 (amended): for every input whose stripped form neither starts
with the "```json" fence nor ends with the "```" fence, wrapping it in those
fences parses to the identical record; for an input that itself carries
fences the two parses can differ, because the cleaning strips only one fence
layer. -/
theorem fence_strip_equiv (s : Str)
    (h1 : leadsWith (pyStrip s) fenceOpen = false)
    (h2 : trailsWith (pyStrip s) fenceClose = false) :
    parse_meta_tags_json (fenceOpen ++ s ++ fenceClose) = parse_meta_tags_json s := by
  unfold parse_meta_tags_json
  rw [clean_wrap, clean_of_no_fence s h1 h2]

theorem fence_strip_equiv_witness :
    leadsWith (pyStrip "\x7b\"a\": \"b\"\x7d".data) fenceOpen = false ∧
    trailsWith (pyStrip "\x7b\"a\": \"b\"\x7d".data) fenceClose = false ∧
    parse_meta_tags_json (fenceOpen ++ "\x7b\"a\": \"b\"\x7d".data ++ fenceClose)
      = parse_meta_tags_json "\x7b\"a\": \"b\"\x7d".data :=
  ⟨by decide, by decide,
    fence_strip_equiv "\x7b\"a\": \"b\"\x7d".data (by decide) (by decide)⟩

/-- Claim C6 counterexample: for the already-fenced input
    ```json⏎{"a": "b"}⏎``` , wrapping it in one more fence layer parses to a
different record: the inner parse succeeds, the wrapped parse degrades to
the error record. -/
theorem fence_strip_counterexample :
    parse_meta_tags_json
        (fenceOpen ++ "```json\n\x7b\"a\": \"b\"\x7d\n```".data ++ fenceClose)
      ≠ parse_meta_tags_json "```json\n\x7b\"a\": \"b\"\x7d\n```".data := by
  decide

end DMP

namespace DMP

/-- The serialized values of a record: every value is a JSON string. -/
def recVals (r : MetaRec) : List (Str × JVal) := r.map (fun p => (p.1, JVal.jStr p.2))

lemma parseObjRest_succ (mode : PMode) (f : Nat) (s : Str) (acc : List (Str × JVal)) :
    parseObjRest mode (f + 1) s acc
      = match skipJWS s with
        | [] => none
        | c :: cs =>
          if isQuote mode c then
            (parseStrBody mode c cs).bind fun kr => objAfterKey mode f kr.1 kr.2 acc
          else none := by
  rcases hs : skipJWS s with _ | ⟨c, cs⟩
  · simp [parseObjRest, hs]
  · by_cases hq : isQuote mode c
    · rcases hp : parseStrBody mode c cs with _ | ⟨k, r1⟩
      · simp [parseObjRest, hs, hq, hp]
      · rcases hr1 : skipJWS r1 with _ | ⟨d, r2⟩
        · simp [parseObjRest, objAfterKey, hs, hq, hp, hr1]
        · by_cases hd : d = ':'
          · subst hd
            rcases hv : parseJVal mode f r2 with _ | ⟨v, r3⟩
            · simp [parseObjRest, objAfterKey, hs, hq, hp, hr1, hv]
            · simp [parseObjRest, objAfterKey, objAfterVal, hs, hq, hp, hr1, hv]
          · simp [parseObjRest, objAfterKey, hs, hq, hp, hr1, hd]
    · simp [parseObjRest, hs, hq]

lemma hexVal_hexDigit (n : Nat) (h : n < 16) : hexVal (hexDigit n) = some n := by
  interval_cases n <;> rfl

lemma parseStrBody_escapeChar (c : Char) (rest : Str) :
    parseStrBody PMode.json '"' (escapeChar c ++ rest)
      = (parseStrBody PMode.json '"' rest).map (fun p => (c :: p.1, p.2)) := by
  by_cases h1 : c = '"'
  · subst h1; rw [parseStrBody.eq_def]; simp +decide [escapeChar, escChar]
  by_cases h2 : c = '\\'
  · subst h2; rw [parseStrBody.eq_def]; simp +decide [escapeChar, escChar]
  by_cases h3 : c = '\n'
  · subst h3; rw [parseStrBody.eq_def]; simp +decide [escapeChar, escChar]
  by_cases h4 : c = '\t'
  · subst h4; rw [parseStrBody.eq_def]; simp +decide [escapeChar, escChar]
  by_cases h5 : c = '\r'
  · subst h5; rw [parseStrBody.eq_def]; simp +decide [escapeChar, escChar]
  by_cases h6 : c = '\x08'
  · subst h6; rw [parseStrBody.eq_def]; simp +decide [escapeChar, escChar]
  by_cases h7 : c = '\x0c'
  · subst h7; rw [parseStrBody.eq_def]; simp +decide [escapeChar, escChar]
  by_cases h8 : c.toNat < 32
  · have hesc : escapeChar c
        = ['\\', 'u', '0', '0', hexDigit (c.toNat / 16), hexDigit (c.toNat % 16)] := by
      simp [escapeChar, h1, h2, h3, h4, h5, h6, h7, h8]
    rw [hesc, parseStrBody.eq_def]
    simp +decide [hexVal_hexDigit _ (show c.toNat / 16 < 16 by omega),
      hexVal_hexDigit _ (show c.toNat % 16 < 16 by omega),
      show hexVal '0' = some 0 from by decide]
    rw [show c.toNat / 16 * 16 + c.toNat % 16 = c.toNat from by omega,
      Char.ofNat_toNat]
  · have hesc : escapeChar c = [c] := by
      simp [escapeChar, h1, h2, h3, h4, h5, h6, h7, h8]
    rw [hesc, parseStrBody.eq_def]
    simp [h1, h2, h8]

lemma parseStrBody_escStr (s rest : Str) :
    parseStrBody PMode.json '"' (escStr s ++ ('"' :: rest)) = some (s, rest) := by
  induction s with
  | nil =>
    rw [show escStr [] ++ ('"' :: rest) = '"' :: rest from rfl, parseStrBody.eq_def]
    simp +decide
  | cons c s ih =>
    rw [show escStr (c :: s) = escapeChar c ++ escStr s from rfl, List.append_assoc,
      parseStrBody_escapeChar, ih]
    rfl

lemma skipJWS_cons_of_neg (c : Char) (l : Str)
    (h : (c == ' ' || c == '\t' || c == '\n' || c == '\r') = false) :
    skipJWS (c :: l) = c :: l := by
  simp [skipJWS, List.dropWhile_cons, h]

lemma skipJWS_space (l : Str) : skipJWS (' ' :: l) = skipJWS l := by
  simp [skipJWS, List.dropWhile_cons]

lemma dumpStr_shape (t : Str) : dumpStr t = '"' :: (escStr t ++ ['"']) := rfl

lemma dumpStr_append (t rest : Str) :
    dumpStr t ++ rest = '"' :: (escStr t ++ ('"' :: rest)) := by
  rw [dumpStr_shape]
  simp [List.append_assoc]

lemma parseJVal_dumpStr (f : Nat) (v rest : Str) :
    parseJVal PMode.json (f + 1) (' ' :: (dumpStr v ++ rest)) = some (JVal.jStr v, rest) := by
  have hs : skipJWS (' ' :: (dumpStr v ++ rest)) = '"' :: (escStr v ++ ('"' :: rest)) := by
    rw [skipJWS_space, dumpStr_append]
    exact skipJWS_cons_of_neg _ _ (by decide)
  rw [parseJVal.eq_def]
  simp +decide [hs, parseStrBody_escStr]

lemma parseObjRest_space (mode : PMode) (f : Nat) (X : Str) (acc : List (Str × JVal)) :
    parseObjRest mode (f + 1) (' ' :: X) acc = parseObjRest mode (f + 1) X acc := by
  rw [parseObjRest_succ, parseObjRest_succ, skipJWS_space]

lemma objAfterVal_close (mode : PMode) (f : Nat) (k : Str) (v : JVal) (rest : Str)
    (acc : List (Str × JVal)) :
    objAfterVal mode f k v ('}' :: rest) acc = some (JVal.jObj (insertPy acc k v), rest) := by
  unfold objAfterVal
  rw [skipJWS_cons_of_neg '}' _ (by decide)]
  simp +decide

lemma objAfterVal_comma (mode : PMode) (f : Nat) (k : Str) (v : JVal) (X : Str)
    (acc : List (Str × JVal)) :
    objAfterVal mode f k v (',' :: X) acc = parseObjRest mode f X (insertPy acc k v) := by
  unfold objAfterVal
  rw [skipJWS_cons_of_neg ',' _ (by decide)]
  simp +decide

lemma parseObjRest_member (f : Nat) (k v : Str) (T : Str) (acc : List (Str × JVal)) :
    parseObjRest PMode.json (f + 2)
        ('"' :: (escStr k ++ ('"' :: (':' :: ' ' :: (dumpStr v ++ T))))) acc
      = objAfterVal PMode.json (f + 1) k (JVal.jStr v) T acc := by
  rw [parseObjRest_succ, skipJWS_cons_of_neg '"' _ (by decide)]
  simp +decide [parseStrBody_escStr]
  unfold objAfterKey
  rw [skipJWS_cons_of_neg ':' _ (by decide)]
  simp +decide [parseJVal_dumpStr]

end DMP

namespace DMP

lemma insertPy_not_mem (m : List (Str × JVal)) (k : Str) (v : JVal)
    (h : ∀ p ∈ m, p.1 ≠ k) : insertPy m k v = m ++ [(k, v)] := by
  unfold insertPy
  have hany : m.any (fun p => p.1 == k) = false := by
    rcases hb : m.any (fun p => p.1 == k) with _ | _
    · rfl
    · rcases List.any_eq_true.1 hb with ⟨p, hp, he⟩
      exact absurd (by simpa using he) (h p hp)
  simp [hany]

lemma recVals_cons (k v : Str) (r : MetaRec) :
    recVals ((k, v) :: r) = (k, JVal.jStr v) :: recVals r := rfl

lemma dumpMembers_single_shape (k v : Str) (rest : Str) :
    dumpMembers (recVals [(k, v)]) ++ ('}' :: rest)
      = '"' :: (escStr k ++ ('"' :: (':' :: ' ' :: (dumpStr v ++ ('}' :: rest))))) := by
  show (dumpStr k ++ ':' :: ' ' :: dumpJVal (JVal.jStr v)) ++ ('}' :: rest) = _
  rw [show dumpJVal (JVal.jStr v) = dumpStr v from rfl]
  rw [List.append_assoc, dumpStr_append]
  simp

lemma dumpMembers_cons2_shape (k v : Str) (q : Str × JVal) (ms : List (Str × JVal))
    (rest : Str) :
    dumpMembers ((k, JVal.jStr v) :: q :: ms) ++ ('}' :: rest)
      = '"' :: (escStr k ++ ('"' :: (':' :: ' ' :: (dumpStr v ++
          (',' :: ' ' :: (dumpMembers (q :: ms) ++ ('}' :: rest))))))) := by
  show (dumpStr k ++ ':' :: ' ' :: dumpJVal (JVal.jStr v) ++ ',' :: ' ' :: dumpMembers (q :: ms))
      ++ ('}' :: rest) = _
  rw [show dumpJVal (JVal.jStr v) = dumpStr v from rfl]
  rw [List.append_assoc, dumpStr_append]
  simp [List.append_assoc]

lemma parseObjRest_dumpMembers :
    ∀ (r : MetaRec) (f : Nat) (acc : List (Str × JVal)) (rest : Str),
      r ≠ [] →
      (∀ q ∈ r, ∀ p ∈ acc, p.1 ≠ q.1) →
      ((r.map fun p => p.1).Nodup) →
      r.length ≤ f + 1 →
      parseObjRest PMode.json (f + 2) (dumpMembers (recVals r) ++ ('}' :: rest)) acc
        = some (JVal.jObj (acc ++ recVals r), rest) := by
  intro r
  induction r with
  | nil => intro f acc rest hne; exact absurd rfl hne
  | cons p r' ih =>
    obtain ⟨k, v⟩ := p
    intro f acc rest _ hdisj hnd hlen
    cases r' with
    | nil =>
      rw [dumpMembers_single_shape, parseObjRest_member, objAfterVal_close]
      rw [insertPy_not_mem acc k (JVal.jStr v)
        (fun p hp => hdisj (k, v) (by simp) p hp)]
      rfl
    | cons q r'' =>
      obtain ⟨kq, vq⟩ := q
      rw [recVals_cons, recVals_cons, dumpMembers_cons2_shape, parseObjRest_member,
        objAfterVal_comma, ← recVals_cons]
      have hf : ∃ f', f = f' + 1 := by
        have := hlen
        simp only [List.length_cons] at this
        exact ⟨f - 1, by omega⟩
      obtain ⟨f', rfl⟩ := hf
      rw [parseObjRest_space]
      have hkacc : ∀ p ∈ acc, p.1 ≠ k := fun p hp => hdisj (k, v) (by simp) p hp
      rw [insertPy_not_mem acc k (JVal.jStr v) hkacc]
      have hknotin : k ∉ (((kq, vq) :: r'').map fun p => p.1) := by
        have := hnd
        simp only [List.map_cons, List.nodup_cons] at this
        exact this.1
      have hdisj' : ∀ q' ∈ (kq, vq) :: r'', ∀ p ∈ acc ++ [(k, JVal.jStr v)], p.1 ≠ q'.1 := by
        intro q' hq' p hp
        rcases List.mem_append.1 hp with hpa | hpk
        · exact hdisj q' (List.mem_cons_of_mem _ hq') p hpa
        · have : p = (k, JVal.jStr v) := by simpa using hpk
          subst this
          intro hkq
          exact hknotin (List.mem_map.2 ⟨q', hq', hkq.symm⟩)
      have hnd' : (((kq, vq) :: r'').map fun p => p.1).Nodup := by
        have := hnd
        simp only [List.map_cons, List.nodup_cons] at this ⊢
        exact ⟨this.2.1, this.2.2⟩
      have hlen' : ((kq, vq) :: r'').length ≤ f' + 1 := by
        have := hlen
        simp only [List.length_cons] at this ⊢
        omega
      rw [ih f' (acc ++ [(k, JVal.jStr v)]) rest (by simp) hdisj' hnd' hlen']
      rw [recVals_cons, List.append_assoc]
      rfl

end DMP

namespace DMP

lemma dumpMembers_length_ge :
    ∀ (r : MetaRec), r.length ≤ (dumpMembers (recVals r)).length := by
  intro r
  induction r with
  | nil => simp
  | cons p r' ih =>
    obtain ⟨k, v⟩ := p
    cases r' with
    | nil =>
      show 1 ≤ (dumpStr k ++ ':' :: ' ' :: dumpJVal (JVal.jStr v)).length
      simp only [List.length_append, List.length_cons]
      omega
    | cons q r'' =>
      have hshape : dumpMembers (recVals ((k, v) :: q :: r''))
          = dumpStr k ++ ':' :: ' ' :: dumpJVal (JVal.jStr v)
              ++ ',' :: ' ' :: dumpMembers (recVals (q :: r'')) := rfl
      rw [hshape]
      simp only [List.length_cons, List.length_append, List.length_cons]
      have := ih
      simp only [List.length_cons] at this ⊢
      omega

lemma parseJVal_dumpObj (k0 v0 : Str) (r' : MetaRec) (f : Nat)
    (hnd : (((k0, v0) :: r').map fun p => p.1).Nodup)
    (hf : ((k0, v0) :: r').length ≤ f + 1) :
    parseJVal PMode.json (f + 3)
        ('{' :: (dumpMembers (recVals ((k0, v0) :: r')) ++ ('}' :: [])))
      = some (JVal.jObj (recVals ((k0, v0) :: r')), []) := by
  have hhead : ∃ Y, dumpMembers (recVals ((k0, v0) :: r')) = '"' :: Y := by
    cases r' with
    | nil => exact ⟨_, rfl⟩
    | cons q r'' => exact ⟨_, rfl⟩
  obtain ⟨Y, hY⟩ := hhead
  have hsk : skipJWS ('{' :: (dumpMembers (recVals ((k0, v0) :: r')) ++ ('}' :: [])))
      = '{' :: (dumpMembers (recVals ((k0, v0) :: r')) ++ ('}' :: [])) :=
    skipJWS_cons_of_neg _ _ (by decide)
  have hsk2 : skipJWS (dumpMembers (recVals ((k0, v0) :: r')) ++ ('}' :: []))
      = '"' :: (Y ++ ('}' :: [])) := by
    rw [hY, List.cons_append]
    exact skipJWS_cons_of_neg _ _ (by decide)
  rw [show f + 3 = (f + 2) + 1 from rfl, parseJVal.eq_def]
  simp +decide only [hsk, hsk2]
  rw [show ('"' :: (Y ++ ('}' :: []))) = dumpMembers (recVals ((k0, v0) :: r')) ++ ('}' :: [])
    from by rw [hY, List.cons_append]]
  exact parseObjRest_dumpMembers ((k0, v0) :: r') f [] [] (by simp)
    (by intro q hq p hp; cases hp) hnd hf

lemma serializeRecord_shape (r : MetaRec) :
    serializeRecord r = '{' :: (dumpMembers (recVals r) ++ ('}' :: [])) := rfl

lemma runParse_serializeRecord (r : MetaRec)
    (hnd : (r.map fun p => p.1).Nodup) :
    runParse PMode.json (serializeRecord r) = some (JVal.jObj (recVals r)) := by
  cases r with
  | nil => rfl
  | cons p r' =>
    obtain ⟨k0, v0⟩ := p
    unfold runParse
    rw [serializeRecord_shape]
    have hlen : ('{' :: (dumpMembers (recVals ((k0, v0) :: r')) ++ ('}' :: []))).length + 1
        = (dumpMembers (recVals ((k0, v0) :: r'))).length + 3 := by
      simp
    rw [hlen]
    have hf : ((k0, v0) :: r').length ≤ (dumpMembers (recVals ((k0, v0) :: r'))).length + 1 :=
      le_trans (dumpMembers_length_ge _) (by omega)
    rw [parseJVal_dumpObj k0 v0 r' _ hnd hf]
    rfl

end DMP

namespace DMP

lemma map_keys_update (m : List (Str × JVal)) (k : Str) (v : JVal) :
    (m.map (fun p => if p.1 == k then (k, v) else p)).map (fun p => p.1)
      = m.map fun p => p.1 := by
  induction m with
  | nil => rfl
  | cons q m' ih =>
    simp only [List.map_cons, List.cons.injEq]
    refine ⟨?_, ih⟩
    by_cases hqk : q.1 = k
    · simp [hqk]
    · simp [hqk]

lemma insertPy_keys_nodup (m : List (Str × JVal)) (k : Str) (v : JVal)
    (h : (m.map fun p => p.1).Nodup) :
    ((insertPy m k v).map fun p => p.1).Nodup := by
  unfold insertPy
  split
  · rw [map_keys_update]
    exact h
  · next hany =>
    rw [List.map_append]
    refine List.Nodup.append h (List.nodup_singleton k) ?_
    intro a ha hb
    have hak : a = k := by simpa using hb
    subst hak
    rcases List.mem_map.1 ha with ⟨p, hp, hpa⟩
    have : m.any (fun p => p.1 == a) = true :=
      List.any_eq_true.2 ⟨p, hp, by simp [hpa]⟩
    exact hany this

lemma parseNumCore_shape (b : Bool) (t : Str) (v : JVal) (rest : Str)
    (h : parseNumCore b t = some (v, rest)) : ∃ n, v = JVal.jNum n := by
  unfold parseNumCore at h
  split at h
  · cases h
  · split at h
    · cases h
    · simp only [Option.some.injEq, Prod.mk.injEq] at h
      exact ⟨_, h.1.symm⟩

lemma parseNum_shape (s : Str) (v : JVal) (rest : Str)
    (h : parseNum s = some (v, rest)) : ∃ n, v = JVal.jNum n := by
  unfold parseNum at h
  split at h
  · exact parseNumCore_shape _ _ _ _ h
  · split at h
    · exact parseNumCore_shape _ _ _ _ h
    · exact parseNumCore_shape _ _ _ _ h

lemma parser_obj_nodup (fuel : Nat) (mode : PMode) :
    (∀ s v rest m, parseJVal mode fuel s = some (v, rest) → v = JVal.jObj m →
       (m.map fun p => p.1).Nodup)
    ∧ (∀ s acc v rest m, ((acc.map fun p => p.1).Nodup) →
       parseObjRest mode fuel s acc = some (v, rest) → v = JVal.jObj m →
       (m.map fun p => p.1).Nodup)
    ∧ (∀ s acc v rest, parseArrRest mode fuel s acc = some (v, rest) →
       ∃ l, v = JVal.jArr l) := by
  induction fuel with
  | zero =>
    refine ⟨?_, ?_, ?_⟩
    · intro s v rest m h; rw [show parseJVal mode 0 s = none from rfl] at h; cases h
    · intro s acc v rest m _ h; rw [show parseObjRest mode 0 s acc = none from rfl] at h
      cases h
    · intro s acc v rest h; rw [show parseArrRest mode 0 s acc = none from rfl] at h
      cases h
  | succ f ih =>
    obtain ⟨ihJ, ihO, ihA⟩ := ih
    have hObj : ∀ s acc v rest m, ((acc.map fun p => p.1).Nodup) →
        parseObjRest mode (f + 1) s acc = some (v, rest) → v = JVal.jObj m →
        (m.map fun p => p.1).Nodup := by
      intro s acc v rest m hacc h hv
      rw [parseObjRest_succ] at h
      split at h
      · cases h
      · split at h
        · rw [Option.bind_eq_some] at h
          rcases h with ⟨kr, hps, h⟩
          unfold objAfterKey at h
          split at h
          · cases h
          · split at h
            · rw [Option.bind_eq_some] at h
              rcases h with ⟨vr, hpv, h⟩
              unfold objAfterVal at h
              split at h
              · cases h
              · split at h
                · exact ihO _ _ _ _ _ (insertPy_keys_nodup acc kr.1 vr.1 hacc) h hv
                · split at h
                  · simp only [Option.some.injEq, Prod.mk.injEq] at h
                    rw [← h.1] at hv
                    injection hv with hm
                    rw [← hm]
                    exact insertPy_keys_nodup acc kr.1 vr.1 hacc
                  · cases h
            · cases h
        · cases h
    refine ⟨?_, hObj, ?_⟩
    · intro s v rest m h hv
      simp only [parseJVal] at h
      split at h
      · cases h
      · split at h
        · rw [Option.map_eq_some'] at h
          rcases h with ⟨pr, hps, h⟩
          rw [Prod.mk.injEq] at h
          rw [← h.1] at hv
          cases hv
        · split at h
          · split at h
            · cases h
            · split at h
              · simp only [Option.some.injEq, Prod.mk.injEq] at h
                rw [← h.1] at hv
                injection hv with hm
                rw [← hm]
                simp
              · exact ihO _ _ _ _ _ (by simp) h hv
          · split at h
            · split at h
              · cases h
              · split at h
                · simp only [Option.some.injEq, Prod.mk.injEq] at h
                  rw [← h.1] at hv
                  cases hv
                · rcases ihA _ _ _ _ h with ⟨l, hl⟩
                  rw [hl] at hv
                  cases hv
            · split at h
              · simp only [Option.some.injEq, Prod.mk.injEq] at h
                rw [← h.1] at hv
                cases hv
              · split at h
                · simp only [Option.some.injEq, Prod.mk.injEq] at h
                  rw [← h.1] at hv
                  cases hv
                · split at h
                  · simp only [Option.some.injEq, Prod.mk.injEq] at h
                    rw [← h.1] at hv
                    cases hv
                  · split at h
                    · rcases parseNum_shape _ _ _ h with ⟨n, hn'⟩
                      rw [hn'] at hv
                      cases hv
                    · cases h
    · intro s acc v rest h
      simp only [parseArrRest] at h
      split at h
      · cases h
      · split at h
        · cases h
        · split at h
          · exact ihA _ _ _ _ h
          · split at h
            · simp only [Option.some.injEq, Prod.mk.injEq] at h
              exact ⟨_, h.1.symm⟩
            · cases h

lemma runParse_obj_nodup (mode : PMode) (s : Str) (m : List (Str × JVal))
    (h : runParse mode s = some (JVal.jObj m)) : (m.map fun p => p.1).Nodup := by
  unfold runParse at h
  split at h
  · rename_i v' rest' heq
    split at h
    · injection h with h'
      exact (parser_obj_nodup _ mode).1 _ _ _ _ heq h'
    · cases h
  · cases h

lemma defaultStep_keys_nodup (m : MetaRec) (k : Str)
    (h : (m.map fun p => p.1).Nodup) :
    ((defaultStep m k).map fun p => p.1).Nodup := by
  unfold defaultStep
  split
  · exact h
  · next hany =>
    rw [List.map_append]
    refine List.Nodup.append h (List.nodup_singleton k) ?_
    intro a ha hb
    have hak : a = k := by simpa using hb
    subst hak
    rcases List.mem_map.1 ha with ⟨p, hp, hpa⟩
    exact hany (List.any_eq_true.2 ⟨p, hp, by simp [hpa]⟩)

lemma addDefaults_keys_nodup (m : MetaRec) (h : (m.map fun p => p.1).Nodup) :
    ((addDefaults m).map fun p => p.1).Nodup := by
  unfold addDefaults
  have : ∀ (l : List Str) (m : MetaRec), (m.map fun p => p.1).Nodup →
      ((l.foldl defaultStep m).map fun p => p.1).Nodup := by
    intro l
    induction l with
    | nil => intro m hm; exact hm
    | cons a l ih => intro m hm; exact ih _ (defaultStep_keys_nodup m a hm)
  exact this requiredFields m h

lemma map_keys_stringify (l : List (Str × JVal)) :
    ((l.map (fun p => (p.1, stringify_value p.2))).map fun p => p.1)
      = l.map fun p => p.1 := by
  induction l with
  | nil => rfl
  | cons p l ih => simp only [List.map_cons, ih]

/-- Every record the parser returns has pairwise distinct keys. -/
lemma parse_keys_nodup (s : Str) :
    ((parse_meta_tags_json s).map fun p => p.1).Nodup := by
  have herr : (errorRecord.map fun p => p.1).Nodup := by decide
  unfold parse_meta_tags_json parseCleaned
  rcases hj : runParse PMode.json (cleanJson s) with _ | vj
  · rcases hp : runParse PMode.py (cleanJson s) with _ | vp
    · simpa [hj, hp, Option.orElse] using herr
    · cases vp with
      | jObj m =>
        simp only [hj, hp, Option.orElse]
        exact addDefaults_keys_nodup _
          (by rw [map_keys_stringify]; exact runParse_obj_nodup PMode.py _ m hp)
      | jStr t => simpa [hj, hp, Option.orElse] using herr
      | jNum n => simpa [hj, hp, Option.orElse] using herr
      | jBool b => simpa [hj, hp, Option.orElse] using herr
      | jNull => simpa [hj, hp, Option.orElse] using herr
      | jArr l => simpa [hj, hp, Option.orElse] using herr
  · cases vj with
    | jObj m =>
      simp only [hj, Option.orElse]
      exact addDefaults_keys_nodup _
        (by rw [map_keys_stringify]; exact runParse_obj_nodup PMode.json _ m hj)
    | jStr t => simpa [hj, Option.orElse] using herr
    | jNum n => simpa [hj, Option.orElse] using herr
    | jBool b => simpa [hj, Option.orElse] using herr
    | jNull => simpa [hj, Option.orElse] using herr
    | jArr l => simpa [hj, Option.orElse] using herr

lemma clean_serializeRecord (r : MetaRec) :
    cleanJson (serializeRecord r) = serializeRecord r := by
  have h1 : pyStrip (serializeRecord r) = serializeRecord r := by
    rw [serializeRecord_shape]
    exact pyStrip_of_ends _ _ _ (by decide) (by decide)
  have h2 : leadsWith (serializeRecord r) fenceOpen = false := by
    rw [serializeRecord_shape, fenceOpen_eq]
    simp +decide [leadsWith]
  have h3 : trailsWith (serializeRecord r) fenceClose = false := by
    unfold trailsWith
    rw [serializeRecord_shape, fenceClose_eq]
    rw [show ('{' :: (dumpMembers (recVals r) ++ ('}' :: []))).reverse
        = '}' :: ((dumpMembers (recVals r)).reverse ++ ['{']) from by simp]
    simp +decide [leadsWith]
  unfold cleanJson dropOpenFence dropCloseFence
  rw [h1, h2]
  simp only [Bool.false_eq_true, if_false]
  rw [h3]
  simp only [Bool.false_eq_true, if_false]
  exact h1

lemma stringify_recVals (r : MetaRec) :
    (recVals r).map (fun p => (p.1, stringify_value p.2)) = r := by
  induction r with
  | nil => rfl
  | cons p r' ih =>
    obtain ⟨k, v⟩ := p
    simp only [recVals_cons, List.map_cons, ih]
    rfl

lemma addDefaults_id_of_required (m : MetaRec)
    (h : ∀ k ∈ requiredFields, m.any (fun p => p.1 == k) = true) :
    addDefaults m = m := by
  unfold addDefaults
  have : ∀ (l : List Str), (∀ k ∈ l, m.any (fun p => p.1 == k) = true) →
      l.foldl defaultStep m = m := by
    intro l
    induction l with
    | nil => intro _; rfl
    | cons a l ih =>
      intro hl
      rw [List.foldl_cons, show defaultStep m a = m from by
        unfold defaultStep; rw [hl a (by simp)]; simp]
      exact ih (fun k hk => hl k (List.mem_cons_of_mem _ hk))
  exact this requiredFields h

/-- Claim C5: the parser is idempotent: serializing the returned record back
to JSON (`json.dumps` of the string-valued dict) and parsing that JSON again
yields the identical record. -/
theorem parse_serialize_idempotent (s : Str) :
    parse_meta_tags_json (serializeRecord (parse_meta_tags_json s))
      = parse_meta_tags_json s := by
  have hnd : ((parse_meta_tags_json s).map fun p => p.1).Nodup := parse_keys_nodup s
  have hreq : ∀ k ∈ requiredFields, k ∈ ((parse_meta_tags_json s).map fun p => p.1) :=
    fun k hk => parse_mem_keys s k hk
  set r := parse_meta_tags_json s with hr
  show parseCleaned (cleanJson (serializeRecord r)) = r
  rw [clean_serializeRecord]
  unfold parseCleaned
  rw [runParse_serializeRecord r hnd]
  simp only [Option.orElse]
  rw [stringify_recVals]
  refine addDefaults_id_of_required r ?_
  intro k hk
  rcases List.mem_map.1 (hreq k hk) with ⟨p, hp, hpk⟩
  exact List.any_eq_true.2 ⟨p, hp, by simp [hpk]⟩


end DMP
